import Mathlib

/-
Verification of the sanskrit ingestion pipeline, a shallow embedding of
the repository sources context.py, setup.py and util/functions.py.

Modelling conventions:
- a Python dict is an assignment list `List (K × V)`; `d[k] = v` appends
  the pair, and lookup returns the value of the last matching pair;
- a raising lookup `d[k]` is modelled in the `Except` monad (KeyError
  carries the missing key), a non-raising `d.get(k)` returns `Option`;
- CSV and YAML readers are external collaborators; a stage consumes the
  list of records they yield, typed by the record shape the stage reads;
- a stage that prints its skip count at the end is modelled with a
  `report : Option Nat` field, `none` when the source prints no count.
-/

/-- Dictionary lookup over an assignment list: the value of the last
matching assignment wins, as for repeated Python dict assignments. -/
def dictGet {K V : Type} [DecidableEq K] : List (K × V) → K → Option V
  | [], _ => none
  | p :: ps, k =>
    match dictGet ps k with
    | some v => some v
    | none => if p.1 = k then some p.2 else none

/-- Raising dictionary lookup, Python `d[k]`: a miss is a KeyError,
modelled as `Except.error` carrying the missing key. -/
def dictGetE {V : Type} (d : List (String × V)) (k : String) : Except String V :=
  match dictGet d k with
  | some v => Except.ok v
  | none => Except.error k

/-
Configuration Context (context.py, Context.__init__).
-/

/-- Python str.isupper for config keys: at least one alphabetic
character and no lowercase alphabetic character. -/
def pyIsUpper (s : String) : Bool :=
  s.toList.any (fun c => c.isAlpha) && s.toList.all (fun c => !c.isAlpha || c.isUpper)

/-- The Context's settings mapping. -/
abbrev Config := List (String × String)

/-- The first loop of Context.__init__: only uppercase keys of the
settings source are stored in the context. -/
def filterUpper (src : Config) : Config :=
  src.filter (fun p => pyIsUpper p.1)

/-- One step of os.path.join for the relative components used here. -/
def osJoin2 (a b : String) : String :=
  if b.startsWith "/" then b
  else if a = "" || a.endsWith "/" then a ++ b
  else a ++ "/" ++ b

/-- The default path os.path.join(DATA_PATH, 'lang', fname) computed by
the local function `default` in Context.__init__. -/
def defaultPath (dp fname : String) : String :=
  osJoin2 (osJoin2 dp "lang") fname

/-- The fixed (config key, file name) pairs of the twenty `default`
calls of Context.__init__, in source order. -/
def pathFileNames : List (String × String) :=
  [("ADJECTIVE_STEMS", "adjective-stems.csv"),
   ("ENUMS", "enums.yml"),
   ("GERUNDS", "gerunds.csv"),
   ("INDECLINABLES", "indeclinables.yml"),
   ("INFINITIVES", "infinitives.csv"),
   ("IRREGULAR_ADJECTIVES", "irregular-adjectives.yml"),
   ("IRREGULAR_NOUNS", "irregular-nouns.yml"),
   ("MODIFIED_ROOTS", "modified-roots.yml"),
   ("NOMINAL_ENDINGS", "nominal-endings.yml"),
   ("NOUN_STEMS", "noun-stems.csv"),
   ("PARTICIPLE_STEMS", "participle-stems.csv"),
   ("PREFIX_GROUPS", "prefix-groups.yml"),
   ("PREFIXED_ROOTS", "prefixed-roots.yml"),
   ("PRONOUNS", "pronouns.yml"),
   ("ROOTS", "roots.yml"),
   ("SANDHI", "sandhi.yml"),
   ("VERB_ENDINGS", "verb-endings.yml"),
   ("VERB_PREFIXES", "verb-prefixes.yml"),
   ("VERB_STEMS", "verb-stems.yml"),
   ("VERBS", "verbs.csv")]

/-- The local function `default(name, fname)` of Context.__init__: it
always reads self.config['DATA_PATH'] (raising) to build the joined
path, then config.setdefault(name, path). -/
def applyDefault (cfg : Config) (k fname : String) : Except Unit Config :=
  match dictGet cfg "DATA_PATH" with
  | none => Except.error ()
  | some dp =>
    if (dictGet cfg k).isSome then Except.ok cfg
    else Except.ok (cfg ++ [(k, defaultPath dp fname)])

/-- The sequence of `default` calls of Context.__init__. -/
def applyDefaults : List (String × String) → Config → Except Unit Config
  | [], cfg => Except.ok cfg
  | kf :: rest, cfg =>
    match applyDefault cfg kf.1 kf.2 with
    | Except.error e => Except.error e
    | Except.ok cfg2 => applyDefaults rest cfg2

/-- The config portion of Context.__init__ for a mapping source:
uppercase filtering followed by the twenty default applications. -/
def contextInitConfig (src : Config) : Except Unit Config :=
  applyDefaults pathFileNames (filterUpper src)

/-- The config Context.__init__ produces from a source supplying only
DATA_PATH and DATABASE_URI: the two supplied keys followed by the
twenty defaulted path keys in source order. -/
def expectedConfig (dp uri : String) : Config :=
  [("DATA_PATH", dp), ("DATABASE_URI", uri)] ++
    pathFileNames.map (fun kf => (kf.1, defaultPath dp kf.2))

/-- A settings source supplying DATABASE_URI and every one of the twenty
path keys explicitly, but not DATA_PATH. -/
def srcNoDataPath : Config :=
  ("DATABASE_URI", "u") :: pathFileNames.map (fun kf => (kf.1, "x"))

/-
Enum Registry (context.py, Context._build_enums).
-/

/-- A row of one enum category table as read back by _build_enums. -/
structure EnumRow where
  id : Nat
  name : String
  abbr : String
  deriving DecidableEq

/-- A Python dict assignment d[k] = v for the assignment-list encoding. -/
def dictAssign {K V : Type} (d : List (K × V)) (k : K) (v : V) : List (K × V) :=
  d ++ [(k, v)]

/-- The per-category enum_id map: for every row, first
enum_id[item.name] = item.id, then enum_id[item.abbr] = item.id. -/
def buildEnumId (rows : List EnumRow) : List (String × Nat) :=
  rows.foldl (fun d r => dictAssign (dictAssign d r.name r.id) r.abbr r.id) []

/-- The per-category enum_abbr map, keyed heterogeneously by row id or
row name as in Python: enum_abbr[item.id] = enum_abbr[item.name] =
item.abbr. -/
def buildEnumAbbr (rows : List EnumRow) : List ((Nat ⊕ String) × String) :=
  rows.foldl
    (fun d r => dictAssign (dictAssign d (Sum.inl r.id) r.abbr) (Sum.inr r.name) r.abbr) []

/-- The assignments performed by buildEnumId, flattened in order. -/
def enumIdEntries : List EnumRow → List (String × Nat)
  | [] => []
  | r :: rs => (r.name, r.id) :: (r.abbr, r.id) :: enumIdEntries rs

/-- The assignments performed by buildEnumAbbr, flattened in order. -/
def enumAbbrEntries : List EnumRow → List ((Nat ⊕ String) × String)
  | [] => []
  | r :: rs => (Sum.inl r.id, r.abbr) :: (Sum.inr r.name, r.abbr) :: enumAbbrEntries rs

/-- A two-row enum category table for the C5 witness. -/
def enumRowsW : List EnumRow :=
  [EnumRow.mk 1 "nominative" "1", EnumRow.mk 2 "accusative" "2"]

/-
Pipeline orchestration (setup.py, run / add_verbal / add_nominals).
-/

/-- Observable pipeline events: the schema drop and recreate, and every
data-writing stage function that run(ctx) reaches. -/
inductive Event where
  | dropAll
  | createAll
  | tags
  | enums
  | sandhi
  | indeclinables
  | verbPrefixes
  | verbEndings
  | rootsParadigms
  | verbs
  | participleStems
  | verbalIndeclinables
  | nominalEndings
  | nounStems
  | irregularNouns
  | adjectiveStems
  | irregularAdjectives
  | pronouns
  deriving DecidableEq

/-- The stage calls made by add_verbal, in order; the early return in
add_verbal keeps add_prefixed_roots and the prefix map unreached. -/
def verbalSeq : List Event :=
  [Event.verbPrefixes, Event.verbEndings, Event.rootsParadigms,
   Event.verbs, Event.participleStems, Event.verbalIndeclinables]

/-- The stage calls made by add_nominals, in order. -/
def nominalSeq : List Event :=
  [Event.nominalEndings, Event.nounStems, Event.irregularNouns,
   Event.adjectiveStems, Event.irregularAdjectives, Event.pronouns]

/-- The trace of run(ctx): drop_all, create_all, then the fixed stage
list Tags, Enumerated data, Sandhi, Indeclinables, Verbal data,
Nominal data, with the two sub-pipelines expanded to their call order. -/
def runTrace : List Event :=
  [Event.dropAll, Event.createAll, Event.tags, Event.enums, Event.sandhi,
   Event.indeclinables] ++ verbalSeq ++ nominalSeq

/-- Position of an event in the run trace. -/
def trIdx (e : Event) : Nat :=
  runTrace.findIdx (fun x => decide (x = e))

/-- Which lookup table each consuming stage reads, as (consumer,
producer) pairs: the ENUM map is filled by add_enums and the root map is
returned by add_roots. -/
def stageDeps : List (Event × Event) :=
  [(Event.sandhi, Event.enums),
   (Event.verbEndings, Event.enums),
   (Event.rootsParadigms, Event.enums),
   (Event.verbs, Event.rootsParadigms),
   (Event.verbs, Event.enums),
   (Event.participleStems, Event.rootsParadigms),
   (Event.participleStems, Event.enums),
   (Event.verbalIndeclinables, Event.rootsParadigms),
   (Event.nominalEndings, Event.enums),
   (Event.nounStems, Event.enums),
   (Event.irregularNouns, Event.enums),
   (Event.irregularAdjectives, Event.enums),
   (Event.pronouns, Event.enums)]

/-
Schema lifecycle (context.py, Context.create_all).
-/

/-- A table object of the schema metadata. -/
structure SchemaTable where
  name : String
  deriving DecidableEq

/-- A runtime Python value as stored in the extant set of
Context.create_all: the set holds table-name strings, while the report
loop tests membership of Table objects; Python equality between a Table
object and a string is always false, which the two constructors model. -/
inductive PyVal where
  | pstr (s : String)
  | ptable (t : SchemaTable)
  deriving DecidableEq

/-- The extant set of create_all: the names of the tables that already
exist, collected as strings. -/
def createAllExtant (schema : List SchemaTable) (existing : List String) : List PyVal :=
  (schema.filter (fun t => decide (t.name ∈ existing))).map (fun t => PyVal.pstr t.name)

/-- Context.create_all: record the extant names, create every missing
table, then print a created marker for each table of sorted_tables whose
loop variable, a Table object, is not found in the extant set; returns
the resulting existing-table names and the printed report. -/
def createAllModel (schema : List SchemaTable) (existing : List String) :
    List String × List SchemaTable :=
  let extant := createAllExtant schema existing
  (existing ++ (schema.map (fun t => t.name)).filter (fun n => decide (¬ n ∈ existing)),
   schema.filter (fun t => decide (¬ PyVal.ptable t ∈ extant)))

/-
Cross-reference resolver (setup.py, add_verbs / add_participle_stems /
add_verbal_indeclinables).  The three loops share one shape: try the
exact (root, hom) pair in the root map; on a miss add the pair to the
skipped set and continue with the next record; on a hit build the
record, where any raising enum lookup aborts the stage.
-/

/-- The composite natural key (root name, homonym index or none). -/
abbrev RootKey := String × Option String

/-- The root map produced by add_roots: (name, hom) to root id. -/
abbrev RootMap := List (RootKey × Nat)

/-- One enum category map from the process-wide ENUM cache. -/
abbrev EnumMap := List (String × Nat)

/-- Python set.add on an insertion-ordered set list. -/
def setInsert (s : List RootKey) (k : RootKey) : List RootKey :=
  if k ∈ s then s else s ++ [k]

/-- What a resolver stage leaves behind: the records inserted into the
session, the skipped set, and the skip count printed at end of stage
(none when the source prints no count). -/
structure StageOut (β : Type) where
  inserted : List β
  skipped : List RootKey
  report : Option Nat
  deriving DecidableEq

/-- The shared resolver loop: for each record, the exact root-map lookup
decides between skip-and-continue and building the record, and a
failing enum lookup inside the record constructor aborts the stage. -/
def resolveLoop {α β : Type} (keyOf : α → RootKey) (mk : α → Nat → Except String β)
    (rm : RootMap) :
    List α → List β → List RootKey → Except String (List β × List RootKey)
  | [], acc, sk => Except.ok (acc, sk)
  | r :: rs, acc, sk =>
    match dictGet rm (keyOf r) with
    | none => resolveLoop keyOf mk rm rs acc (setInsert sk (keyOf r))
    | some rid =>
      match mk r rid with
      | Except.error e => Except.error e
      | Except.ok b => resolveLoop keyOf mk rm rs (acc ++ [b]) sk

/-
Stage record shapes and constructors (setup.py).
-/

/-- One row of verbs.csv as consumed by add_verbs. -/
structure VerbRow where
  name : String
  root : String
  hom : Option String
  vclass : String
  person : String
  number : String
  mode : String
  voice : String
  deriving DecidableEq

/-- The Verb row payload built by add_verbs. -/
structure VerbRec where
  name : String
  root_id : Nat
  vclass_id : Option Nat
  person_id : Nat
  number_id : Nat
  mode_id : Nat
  voice_id : Nat
  deriving DecidableEq

/-- The vclass field of add_verbs: vclass[row.vclass] if row.vclass else
None, where an empty string is the falsy case. -/
def vclassField (vclass : EnumMap) (s : String) : Except String (Option Nat) :=
  if s = "" then Except.ok none
  else
    match dictGet vclass s with
    | some v => Except.ok (some v)
    | none => Except.error s

/-- The data dict of add_verbs, in its evaluation order: vclass (lenient
only about the empty string), then person, number, mode, voice, all
raising lookups. -/
def mkVerb (vclass person number mode voice : EnumMap) (r : VerbRow) (rid : Nat) :
    Except String VerbRec :=
  match vclassField vclass r.vclass with
  | Except.error e => Except.error e
  | Except.ok vc =>
    match dictGetE person r.person with
    | Except.error e => Except.error e
    | Except.ok pid =>
      match dictGetE number r.number with
      | Except.error e => Except.error e
      | Except.ok nid =>
        match dictGetE mode r.mode with
        | Except.error e => Except.error e
        | Except.ok mid =>
          match dictGetE voice r.voice with
          | Except.error e => Except.error e
          | Except.ok vid => Except.ok (VerbRec.mk r.name rid vc pid nid mid vid)

/-- The composite key add_verbs looks up for a row. -/
def verbKey (r : VerbRow) : RootKey := (r.root, r.hom)

/-- The add_verbs stage: the resolver loop from empty accumulators, and
the final skip count print Skipped len(skipped) roots. -/
def addVerbs (vclass person number mode voice : EnumMap) (rm : RootMap)
    (rows : List VerbRow) : Except String (StageOut VerbRec) :=
  match resolveLoop verbKey (mkVerb vclass person number mode voice) rm rows [] [] with
  | Except.error e => Except.error e
  | Except.ok x => Except.ok (StageOut.mk x.1 x.2 (some x.2.length))

/-- One row of participle-stems.csv as consumed by add_participle_stems. -/
structure ParticipleRow where
  name : String
  root : String
  hom : Option String
  mode : String
  voice : String
  deriving DecidableEq

/-- The ParticipleStem row payload built by add_participle_stems. -/
structure ParticipleRec where
  name : String
  root_id : Nat
  mode_id : Nat
  voice_id : Nat
  deriving DecidableEq

/-- The data dict of add_participle_stems: mode and voice are raising
lookups. -/
def mkParticiple (mode voice : EnumMap) (r : ParticipleRow) (rid : Nat) :
    Except String ParticipleRec :=
  match dictGetE mode r.mode with
  | Except.error e => Except.error e
  | Except.ok mid =>
    match dictGetE voice r.voice with
    | Except.error e => Except.error e
    | Except.ok vid => Except.ok (ParticipleRec.mk r.name rid mid vid)

/-- The composite key add_participle_stems looks up for a row. -/
def participleKey (r : ParticipleRow) : RootKey := (r.root, r.hom)

/-- The add_participle_stems stage, with its final skip count print. -/
def addParticipleStems (mode voice : EnumMap) (rm : RootMap)
    (rows : List ParticipleRow) : Except String (StageOut ParticipleRec) :=
  match resolveLoop participleKey (mkParticiple mode voice) rm rows [] [] with
  | Except.error e => Except.error e
  | Except.ok x => Except.ok (StageOut.mk x.1 x.2 (some x.2.length))

/-- Which of the two record classes add_verbal_indeclinables builds. -/
inductive VIKind where
  | gerund
  | infinitive
  deriving DecidableEq

/-- One row of gerunds.csv or infinitives.csv. -/
structure VIRow where
  name : String
  root : String
  hom : Option String
  deriving DecidableEq

/-- The Gerund or Infinitive row payload of add_verbal_indeclinables. -/
structure VIRec where
  kind : VIKind
  name : String
  root_id : Nat
  deriving DecidableEq

/-- The composite key add_verbal_indeclinables looks up for a row. -/
def viKey (r : VIRow) : RootKey := (r.root, r.hom)

/-- The datum dict of add_verbal_indeclinables: no enum lookup occurs,
so building a resolved record cannot fail. -/
def mkVI (kind : VIKind) (r : VIRow) (rid : Nat) : Except String VIRec :=
  Except.ok (VIRec.mk kind r.name rid)

/-- The inner loop of add_verbal_indeclinables for one input file. -/
def viLoop (kind : VIKind) (rm : RootMap) :
    List VIRow → List VIRec → List RootKey → List VIRec × List RootKey
  | [], acc, sk => (acc, sk)
  | r :: rs, acc, sk =>
    match dictGet rm (viKey r) with
    | none => viLoop kind rm rs acc (setInsert sk (viKey r))
    | some rid => viLoop kind rm rs (acc ++ [VIRec.mk kind r.name rid]) sk

/-- The add_verbal_indeclinables stage: gerunds then infinitives over
one shared skipped set; the collected skip count is never printed. -/
def addVerbalIndeclinables (rm : RootMap) (gerRows infRows : List VIRow) :
    StageOut VIRec :=
  let x := viLoop VIKind.gerund rm gerRows [] []
  let y := viLoop VIKind.infinitive rm infRows x.1 x.2
  StageOut.mk y.1 y.2 none

/-- One endings row of a nominal-endings.yml group. The case and number
row keys may be absent, hence the Option typing of the raw fields. -/
structure NominalRow where
  name : String
  gender : String
  csName : Option String
  numName : Option String
  compounded : Bool
  deriving DecidableEq

/-- The NominalEnding row payload built by add_nominal_endings. -/
structure NominalRec where
  name : String
  stem_type : String
  gender_id : Nat
  case_id : Option Nat
  number_id : Option Nat
  compounded : Bool
  deriving DecidableEq

/-- One ending of add_nominal_endings: gender is a raising lookup, while
the case and number fields use dict.get twice over, so a missing row key
or an unknown case or number name silently becomes none. -/
def mkNominalEnding (gender cs num : EnumMap) (stem : String) (r : NominalRow) :
    Except String NominalRec :=
  match dictGetE gender r.gender with
  | Except.error e => Except.error e
  | Except.ok gid =>
    Except.ok (NominalRec.mk r.name stem gid
      (r.csName.bind (fun s => dictGet cs s))
      (r.numName.bind (fun s => dictGet num s)) r.compounded)

/-- The endings loop of add_nominal_endings for one stem group. -/
def nominalGroupLoop (gender cs num : EnumMap) (stem : String) :
    List NominalRow → List NominalRec → Except String (List NominalRec)
  | [], acc => Except.ok acc
  | r :: rs, acc =>
    match mkNominalEnding gender cs num stem r with
    | Except.error e => Except.error e
    | Except.ok nr => nominalGroupLoop gender cs num stem rs (acc ++ [nr])

/-- The add_nominal_endings stage over its yaml groups. -/
def addNominalEndings (gender cs num : EnumMap) :
    List (String × List NominalRow) → List NominalRec → Except String (List NominalRec)
  | [], acc => Except.ok acc
  | g :: gs, acc =>
    match nominalGroupLoop gender cs num g.1 g.2 acc with
    | Except.error e => Except.error e
    | Except.ok acc2 => addNominalEndings gender cs num gs acc2

/-- The single-entry enum map used by the resolver witnesses. -/
def emW : EnumMap := [("x", 1)]

/-- The single-root map used by the resolver witnesses. -/
def rmW : RootMap := [(("gam", none), 1)]

/-- A verb row whose root pair resolves. -/
def verbRowW : VerbRow := VerbRow.mk "gacchati" "gam" none "" "x" "x" "x" "x"

/-- A verb row whose root pair misses the root map. -/
def verbRowMissW : VerbRow := VerbRow.mk "bhavati" "bhU" none "" "x" "x" "x" "x"

/-- A second verb row missing on the same pair as verbRowMissW. -/
def verbRowMiss2W : VerbRow := VerbRow.mk "bhavatah" "bhU" none "" "x" "x" "x" "x"

/-- The gender enum map used by the C2 witness. -/
def nomGenderW : EnumMap := [("feminine", 1)]

/-- A nominal-endings row naming a case absent from the case map. -/
def nomRowBadCase : NominalRow := NominalRow.mk "aa" "feminine" (some "bogus") none false

/-- A verb row naming a person absent from the person map. -/
def verbRowBadPerson : VerbRow := VerbRow.mk "g" "gam" none "" "bogus" "x" "x" "x"

/-
Homonym fallback scan (setup.py, add_prefixed_roots).
-/

/-- The scan list of add_prefixed_roots: homs = [None] + [str(i) for i
in range(1, 10)], so none first, then the digits 1 through 9. -/
def homScan : List (Option String) :=
  [none, some "1", some "2", some "3", some "4", some "5",
   some "6", some "7", some "8", some "9"]

/-- One fallback iteration of add_prefixed_roots: a matching lookup
overwrites the candidate basis_id, a KeyError leaves it unchanged. -/
def overwriteStep {γ δ : Type} (f : γ → Option δ) (acc : Option δ) (x : γ) : Option δ :=
  match f x with
  | some v => some v
  | none => acc

/-- The fallback scan after an exact miss: every matching iteration
overwrites basis_id, a non-matching iteration leaves it unchanged. -/
def scanBasis (rm : RootMap) (basis : String) : Option Nat :=
  homScan.foldl (overwriteStep (fun h => dictGet rm (basis, h))) none

/-- The basis resolution of add_prefixed_roots: exact lookup first, and
on a KeyError the overwriting scan over homScan. -/
def resolveBasis (rm : RootMap) (basis : String) (hom : Option String) : Option Nat :=
  match dictGet rm (basis, hom) with
  | some v => some v
  | none => scanBasis rm basis

/-- Modelled from the spec (the claim wording): the scan order the claim
asserts, homonym indices 0 through 9 followed by none. -/
def specHomScan : List (Option String) :=
  [some "0", some "1", some "2", some "3", some "4", some "5",
   some "6", some "7", some "8", some "9", none]

/-- Modelled from the spec (the claim wording): the overwriting scan run
over the scan order the claim asserts. -/
def specScanBasis (rm : RootMap) (basis : String) : Option Nat :=
  specHomScan.foldl (overwriteStep (fun h => dictGet rm (basis, h))) none

/-- The first option when it holds a value, the second otherwise. -/
def orDefault {δ : Type} (o : Option δ) (init : Option δ) : Option δ :=
  match o with
  | some v => some v
  | none => init

/-- The last element of a list, if any, without a default. -/
def lastSome : {γ : Type} → List γ → Option γ
  | _, [] => none
  | _, a :: as =>
    match lastSome as with
    | some b => some b
    | none => some a

/-- A root map with an exact miss for hom 7 and two scan matches, none
and 3; the source scan selects the id for 3 (the later match), while the
claim's 0-to-9-then-none order would select the id for none. -/
def rmOrderCex : RootMap := [(("gam", none), 1), (("gam", some "3"), 2)]

/-- A root map whose only entry carries homonym index 0, which the
claim's asserted scan includes but the source scan does not. -/
def rmZeroCex : RootMap := [(("gam", some "0"), 7)]

/-
Batch writer (setup.py, add_noun_stems / add_adjective_stems).
-/

/-- One row of noun-stems.csv. -/
structure NounRow where
  name : String
  genders : String
  deriving DecidableEq

/-- The NounStem bulk-insert payload of add_noun_stems. -/
structure NounStemRec where
  name : String
  pos_id : Nat
  genders_id : Nat
  deriving DecidableEq

/-- One row of adjective-stems.csv. -/
structure AdjRow where
  name : String
  deriving DecidableEq

/-- The AdjectiveStem bulk-insert payload of add_adjective_stems. -/
structure AdjStemRec where
  name : String
  pos_id : Nat
  deriving DecidableEq

/-- The buffering skeleton the two bulk stages share: append the payload
to the buffer, count the row, and at every 500th row issue the whole
buffer as one bulk insert and clear it. -/
def bulkAux {γ : Type} : List γ → List γ → Nat → List (List γ) → List (List γ) × List γ
  | [], buf, _, out => (out, buf)
  | x :: xs, buf, i, out =>
    if (i + 1) % 500 = 0 then bulkAux xs [] (i + 1) (out ++ [buf ++ [x]])
    else bulkAux xs (buf ++ [x]) (i + 1) out

/-- The final flush: one more bulk insert if the buffer is nonempty. -/
def flushFinal {γ : Type} (p : List (List γ) × List γ) : List (List γ) :=
  if p.2.isEmpty then p.1 else p.1 ++ [p.2]

/-- The loop of add_noun_stems: the gender-group lookup is raising, the
payload carries name, the NOUN tag id and the resolved gender group. -/
def addNounStemsAux (gg : EnumMap) (posId : Nat) :
    List NounRow → List NounStemRec → Nat → List (List NounStemRec) →
      Except String (List (List NounStemRec) × List NounStemRec)
  | [], buf, _, out => Except.ok (out, buf)
  | r :: rs, buf, i, out =>
    match dictGet gg r.genders with
    | none => Except.error r.genders
    | some gid =>
      if (i + 1) % 500 = 0 then
        addNounStemsAux gg posId rs [] (i + 1)
          (out ++ [buf ++ [NounStemRec.mk r.name posId gid]])
      else addNounStemsAux gg posId rs (buf ++ [NounStemRec.mk r.name posId gid]) (i + 1) out

/-- The add_noun_stems stage: the buffering loop from an empty buffer
and counter, then the final flush. -/
def addNounStems (gg : EnumMap) (posId : Nat) (rows : List NounRow) :
    Except String (List (List NounStemRec)) :=
  match addNounStemsAux gg posId rows [] 0 [] with
  | Except.error e => Except.error e
  | Except.ok p => Except.ok (flushFinal p)

/-- The per-row payloads of add_noun_stems in input order, or the first
gender-group lookup error. -/
def nounRecsOf (gg : EnumMap) (posId : Nat) : List NounRow → Except String (List NounStemRec)
  | [] => Except.ok []
  | r :: rs =>
    match dictGet gg r.genders with
    | none => Except.error r.genders
    | some gid =>
      match nounRecsOf gg posId rs with
      | Except.error e => Except.error e
      | Except.ok recs => Except.ok (NounStemRec.mk r.name posId gid :: recs)

/-- The loop of add_adjective_stems: no lookup, payload of name and the
ADJECTIVE tag id. -/
def addAdjStemsAux (posId : Nat) :
    List AdjRow → List AdjStemRec → Nat → List (List AdjStemRec) →
      List (List AdjStemRec) × List AdjStemRec
  | [], buf, _, out => (out, buf)
  | r :: rs, buf, i, out =>
    if (i + 1) % 500 = 0 then
      addAdjStemsAux posId rs [] (i + 1) (out ++ [buf ++ [AdjStemRec.mk r.name posId]])
    else addAdjStemsAux posId rs (buf ++ [AdjStemRec.mk r.name posId]) (i + 1) out

/-- The add_adjective_stems stage with its final flush. -/
def addAdjectiveStems (posId : Nat) (rows : List AdjRow) : List (List AdjStemRec) :=
  flushFinal (addAdjStemsAux posId rows [] 0 [])

theorem dictGet_append_single {K V : Type} [DecidableEq K]
    (d : List (K × V)) (k2 k : K) (v : V) :
    dictGet (d ++ [(k2, v)]) k = if k2 = k then some v else dictGet d k := by
  induction d with
  | nil => simp [dictGet]
  | cons p ps ih =>
    simp only [List.cons_append, dictGet, List.append_eq]
    rw [ih]
    by_cases h : k2 = k
    · simp [h]
    · simp [h]

theorem dictGet_eq_none_of_forall_ne {K V : Type} [DecidableEq K]
    (d : List (K × V)) (k : K) (h : ∀ p ∈ d, p.1 ≠ k) :
    dictGet d k = none := by
  induction d with
  | nil => rfl
  | cons p ps ih =>
    have hp : p.1 ≠ k := h p (List.mem_cons_self p ps)
    have hps : dictGet ps k = none := ih (fun q hq => h q (List.mem_cons_of_mem p hq))
    simp [dictGet, hps, hp]

theorem dictGet_mem {K V : Type} [DecidableEq K]
    (d : List (K × V)) (k : K) (v : V) (h : dictGet d k = some v) :
    (k, v) ∈ d := by
  induction d with
  | nil => simp [dictGet] at h
  | cons p ps ih =>
    simp only [dictGet] at h
    cases hps : dictGet ps k with
    | some w =>
      rw [hps] at h
      exact List.mem_cons_of_mem p (ih (by rw [hps, ← h]))
    | none =>
      rw [hps] at h
      by_cases hk : p.1 = k
      · rw [if_pos hk] at h
        have : p = (k, v) := by
          cases p
          simp only at hk
          simp only [Option.some.injEq] at h
          simp [hk, h]
        exact this ▸ List.mem_cons_self p ps
      · rw [if_neg hk] at h
        cases h

theorem dictGet_of_consistent {K V : Type} [DecidableEq K]
    (d : List (K × V)) (k : K) (v : V)
    (hmem : (k, v) ∈ d) (hcons : ∀ p ∈ d, p.1 = k → p.2 = v) :
    dictGet d k = some v := by
  induction d with
  | nil => cases hmem
  | cons p ps ih =>
    simp only [dictGet]
    cases hps : dictGet ps k with
    | some w =>
      have hw : (k, w) ∈ ps := dictGet_mem ps k w hps
      have : w = v := hcons (k, w) (List.mem_cons_of_mem p hw) rfl
      rw [this]
    | none =>
      rcases List.mem_cons.mp hmem with hpv | hmem2
      · rw [← hpv]
        simp
      · have := ih hmem2 (fun q hq => hcons q (List.mem_cons_of_mem p hq))
        rw [this] at hps
        cases hps

theorem applyDefaults_preserves (ks : List (String × String)) :
    ∀ (cfg cfg2 : Config) (k : String) (v : String),
      applyDefaults ks cfg = Except.ok cfg2 →
      dictGet cfg k = some v → dictGet cfg2 k = some v := by
  induction ks with
  | nil =>
    intro cfg cfg2 k v h hv
    simp only [applyDefaults] at h
    cases h
    exact hv
  | cons kf rest ih =>
    intro cfg cfg2 k v h hv
    cases hdp : dictGet cfg "DATA_PATH" with
    | none => simp [applyDefaults, applyDefault, hdp] at h
    | some dp =>
      cases hk : dictGet cfg kf.1 with
      | some w =>
        simp only [applyDefaults, applyDefault, hdp, hk, Option.isSome_some, if_true] at h
        exact ih cfg cfg2 k v h hv
      | none =>
        simp only [applyDefaults, applyDefault, hdp, hk, Option.isSome_none,
          Bool.false_eq_true, if_false] at h
        refine ih _ cfg2 k v h ?_
        rw [dictGet_append_single]
        by_cases heq : kf.1 = k
        · exfalso
          rw [heq, hv] at hk
          cases hk
        · rw [if_neg heq]
          exact hv

set_option maxHeartbeats 1600000 in
/-- C4: a Context built from a settings mapping supplying only DATA_PATH
and DATABASE_URI sets every resource-path key (ADJECTIVE_STEMS through
VERBS) to the join of DATA_PATH, the fixed lang sub-directory and that
key's fixed file name, and any path key the caller supplies explicitly
is preserved unchanged by the defaulting pass. -/
theorem contextConfig_defaults (dp uri : String) :
    contextInitConfig [("DATA_PATH", dp), ("DATABASE_URI", uri)] =
      Except.ok (expectedConfig dp uri) ∧
    (∀ kf ∈ pathFileNames,
      dictGet (expectedConfig dp uri) kf.1 = some (defaultPath dp kf.2)) ∧
    (∀ (src : Config) (k v : String) (cfg2 : Config),
      dictGet (filterUpper src) k = some v →
      contextInitConfig src = Except.ok cfg2 → dictGet cfg2 k = some v) := by
  refine ⟨?_, ?_, ?_⟩
  · have h1 : pyIsUpper "DATA_PATH" = true := by decide
    have h2 : pyIsUpper "DATABASE_URI" = true := by decide
    simp [contextInitConfig, filterUpper, pathFileNames, applyDefaults,
      applyDefault, expectedConfig, dictGet, h1, h2]
  · intro kf hkf
    apply dictGet_of_consistent
    · exact List.mem_append_right _ (List.mem_map.mpr ⟨kf, hkf, rfl⟩)
    · intro p hp hpk
      rcases List.mem_append.mp hp with hp1 | hp2
      · exfalso
        have hne : ∀ x ∈ pathFileNames, x.1 ≠ "DATA_PATH" ∧ x.1 ≠ "DATABASE_URI" := by
          decide
        rcases List.mem_cons.mp hp1 with rfl | hp1b
        · exact (hne kf hkf).1 hpk.symm
        · rcases List.mem_cons.mp hp1b with rfl | hp1c
          · exact (hne kf hkf).2 hpk.symm
          · cases hp1c
      · rcases List.mem_map.mp hp2 with ⟨kf2, hkf2, rfl⟩
        have hkeyval : ∀ a ∈ pathFileNames, ∀ b ∈ pathFileNames, a.1 = b.1 → a.2 = b.2 := by
          decide
        have hsame : kf2.2 = kf.2 := hkeyval kf2 hkf2 kf hkf hpk
        simp [hsame]
  · intro src k v cfg2 hv h
    exact applyDefaults_preserves pathFileNames (filterUpper src) cfg2 k v h hv

/-- Witness for C4 at a concrete settings mapping: the ROOTS key gets
the default path joined from the supplied DATA_PATH. -/
theorem contextConfig_defaults_witness :
    contextInitConfig [("DATA_PATH", "d"), ("DATABASE_URI", "u")] =
      Except.ok (expectedConfig "d" "u") ∧
    dictGet (expectedConfig "d" "u") "ROOTS" = some (defaultPath "d" "roots.yml") :=
  ⟨(contextConfig_defaults "d" "u").1,
   (contextConfig_defaults "d" "u").2.1 ("ROOTS", "roots.yml") (by decide)⟩

/-- C10: constructing a Context from a settings source that does not
supply DATA_PATH fails with a lookup error while computing default
resource paths, whatever combination of path keys the source supplies:
every default call reads DATA_PATH before consulting setdefault. -/
theorem contextConfig_missing_dataPath (src : Config)
    (h : dictGet (filterUpper src) "DATA_PATH" = none) :
    contextInitConfig src = Except.error () := by
  simp [contextInitConfig, pathFileNames, applyDefaults, applyDefault, h]

/-- Witness for C10: even with all twenty path keys supplied explicitly,
a missing DATA_PATH aborts the Context construction. -/
theorem contextConfig_missing_dataPath_witness :
    dictGet (filterUpper srcNoDataPath) "DATA_PATH" = none ∧
    contextInitConfig srcNoDataPath = Except.error () :=
  ⟨by decide, contextConfig_missing_dataPath srcNoDataPath (by decide)⟩

theorem buildEnumId_eq_entries (rows : List EnumRow) :
    buildEnumId rows = enumIdEntries rows := by
  suffices h : ∀ init : List (String × Nat),
      rows.foldl (fun d r => dictAssign (dictAssign d r.name r.id) r.abbr r.id) init =
        init ++ enumIdEntries rows by
    simpa using h []
  induction rows with
  | nil => intro init; simp [enumIdEntries]
  | cons r rs ih =>
    intro init
    simp only [List.foldl_cons, enumIdEntries]
    rw [ih]
    simp [dictAssign]

theorem buildEnumAbbr_eq_entries (rows : List EnumRow) :
    buildEnumAbbr rows = enumAbbrEntries rows := by
  suffices h : ∀ init : List ((Nat ⊕ String) × String),
      rows.foldl
        (fun d r => dictAssign (dictAssign d (Sum.inl r.id) r.abbr) (Sum.inr r.name) r.abbr)
        init = init ++ enumAbbrEntries rows by
    simpa using h []
  induction rows with
  | nil => intro init; simp [enumAbbrEntries]
  | cons r rs ih =>
    intro init
    simp only [List.foldl_cons, enumAbbrEntries]
    rw [ih]
    simp [dictAssign]

theorem mem_enumIdEntries {rows : List EnumRow} {r : EnumRow} (h : r ∈ rows) :
    (r.name, r.id) ∈ enumIdEntries rows ∧ (r.abbr, r.id) ∈ enumIdEntries rows := by
  induction rows with
  | nil => cases h
  | cons s rs ih =>
    rcases List.mem_cons.mp h with rfl | h2
    · exact ⟨List.mem_cons_self _ _, List.mem_cons_of_mem _ (List.mem_cons_self _ _)⟩
    · exact ⟨List.mem_cons_of_mem _ (List.mem_cons_of_mem _ (ih h2).1),
        List.mem_cons_of_mem _ (List.mem_cons_of_mem _ (ih h2).2)⟩

theorem mem_enumAbbrEntries {rows : List EnumRow} {r : EnumRow} (h : r ∈ rows) :
    (Sum.inl r.id, r.abbr) ∈ enumAbbrEntries rows ∧
    (Sum.inr r.name, r.abbr) ∈ enumAbbrEntries rows := by
  induction rows with
  | nil => cases h
  | cons s rs ih =>
    rcases List.mem_cons.mp h with rfl | h2
    · exact ⟨List.mem_cons_self _ _, List.mem_cons_of_mem _ (List.mem_cons_self _ _)⟩
    · exact ⟨List.mem_cons_of_mem _ (List.mem_cons_of_mem _ (ih h2).1),
        List.mem_cons_of_mem _ (List.mem_cons_of_mem _ (ih h2).2)⟩

/-- C5: after the Enum Registry build, for every row (id, name, abbr) of
an enum category table whose assigned keys are unambiguous across the
table, enum_id sends both the name and the abbreviation to the row id,
and enum_abbr sends both the id and the name to the abbreviation, so
enum_id[name] = enum_id[abbr] and enum_abbr[id] = enum_abbr[name]. -/
theorem enumRegistry_twoWay (rows : List EnumRow)
    (hid : ∀ p ∈ enumIdEntries rows, ∀ q ∈ enumIdEntries rows, p.1 = q.1 → p.2 = q.2)
    (habbr : ∀ p ∈ enumAbbrEntries rows, ∀ q ∈ enumAbbrEntries rows, p.1 = q.1 → p.2 = q.2) :
    ∀ r ∈ rows,
      dictGet (buildEnumId rows) r.name = some r.id ∧
      dictGet (buildEnumId rows) r.abbr = some r.id ∧
      dictGet (buildEnumId rows) r.name = dictGet (buildEnumId rows) r.abbr ∧
      dictGet (buildEnumAbbr rows) (Sum.inl r.id) = some r.abbr ∧
      dictGet (buildEnumAbbr rows) (Sum.inr r.name) = some r.abbr ∧
      dictGet (buildEnumAbbr rows) (Sum.inl r.id) =
        dictGet (buildEnumAbbr rows) (Sum.inr r.name) := by
  intro r hr
  rw [buildEnumId_eq_entries, buildEnumAbbr_eq_entries]
  have hn := dictGet_of_consistent (enumIdEntries rows) r.name r.id
    (mem_enumIdEntries hr).1 (fun p hp hpk => hid p hp (r.name, r.id) (mem_enumIdEntries hr).1 hpk)
  have ha := dictGet_of_consistent (enumIdEntries rows) r.abbr r.id
    (mem_enumIdEntries hr).2 (fun p hp hpk => hid p hp (r.abbr, r.id) (mem_enumIdEntries hr).2 hpk)
  have hi := dictGet_of_consistent (enumAbbrEntries rows) (Sum.inl r.id) r.abbr
    (mem_enumAbbrEntries hr).1
    (fun p hp hpk => habbr p hp (Sum.inl r.id, r.abbr) (mem_enumAbbrEntries hr).1 hpk)
  have hm := dictGet_of_consistent (enumAbbrEntries rows) (Sum.inr r.name) r.abbr
    (mem_enumAbbrEntries hr).2
    (fun p hp hpk => habbr p hp (Sum.inr r.name, r.abbr) (mem_enumAbbrEntries hr).2 hpk)
  exact ⟨hn, ha, by rw [hn, ha], hi, hm, by rw [hi, hm]⟩

/-- Witness for C5 on a concrete two-row category table. -/
theorem enumRegistry_twoWay_witness :
    dictGet (buildEnumId enumRowsW) "nominative" = dictGet (buildEnumId enumRowsW) "1" ∧
    dictGet (buildEnumAbbr enumRowsW) (Sum.inl 1) =
      dictGet (buildEnumAbbr enumRowsW) (Sum.inr "nominative") :=
  have habbr : ∀ p ∈ enumAbbrEntries enumRowsW, ∀ q ∈ enumAbbrEntries enumRowsW,
      p.1 = q.1 → p.2 = q.2 := by
    intro p hp q hq
    simp only [enumRowsW, enumAbbrEntries, List.mem_cons, List.not_mem_nil, or_false] at hp hq
    rcases hp with rfl | rfl | rfl | rfl <;> rcases hq with rfl | rfl | rfl | rfl <;> decide
  have h := enumRegistry_twoWay enumRowsW (by decide) habbr
    (EnumRow.mk 1 "nominative" "1") (by decide)
  ⟨h.2.2.1, h.2.2.2.2.2⟩

/-- C6: a pipeline run drops all tables and recreates them before any
stage writes data, then executes the stages in the fixed order Tags,
Enumerated data, Sandhi, Indeclinables, Verbal data (verb prefixes,
verb endings, roots and paradigms, verbs, participle stems, gerunds and
infinitives), Nominal data; and every stage that consumes a lookup
table runs strictly after the stage producing it. -/
theorem pipeline_order :
    runTrace =
      [Event.dropAll, Event.createAll, Event.tags, Event.enums, Event.sandhi,
       Event.indeclinables, Event.verbPrefixes, Event.verbEndings,
       Event.rootsParadigms, Event.verbs, Event.participleStems,
       Event.verbalIndeclinables, Event.nominalEndings, Event.nounStems,
       Event.irregularNouns, Event.adjectiveStems, Event.irregularAdjectives,
       Event.pronouns] ∧
    trIdx Event.dropAll = 0 ∧
    trIdx Event.createAll = 1 ∧
    ((runTrace.drop 2).all (fun s => decide (trIdx Event.createAll < trIdx s))) = true ∧
    (stageDeps.all (fun d => decide (trIdx d.2 < trIdx d.1))) = true := by
  decide

theorem mem_setInsert_self (s : List RootKey) (k : RootKey) : k ∈ setInsert s k := by
  unfold setInsert
  by_cases h : k ∈ s
  · simp only [h, if_true]
  · simp [h]

theorem mem_setInsert_of_mem {s : List RootKey} {k2 : RootKey} (k : RootKey) (h : k2 ∈ s) :
    k2 ∈ setInsert s k := by
  unfold setInsert
  by_cases hk : k ∈ s
  · simpa [hk]
  · simp [hk]
    exact Or.inl h

theorem mem_setInsert_iff {s : List RootKey} {k k2 : RootKey} :
    k2 ∈ setInsert s k ↔ k2 ∈ s ∨ k2 = k := by
  unfold setInsert
  by_cases hk : k ∈ s
  · simp only [hk, if_true]
    constructor
    · exact Or.inl
    · rintro (h | rfl)
      · exact h
      · exact hk
  · simp [hk]

theorem setInsert_nodup {s : List RootKey} (h : s.Nodup) (k : RootKey) :
    (setInsert s k).Nodup := by
  unfold setInsert
  by_cases hk : k ∈ s
  · simpa [hk]
  · simp only [hk, if_false]
    rw [List.nodup_append]
    exact ⟨h, List.nodup_singleton k, fun a ha hak => by
      rw [List.mem_singleton] at hak
      exact hk (hak ▸ ha)⟩

theorem resolveLoop_sk_mono {α β : Type} (keyOf : α → RootKey)
    (mk : α → Nat → Except String β) (rm : RootMap) :
    ∀ (rows : List α) (acc : List β) (sk ins2sk : List RootKey) (ins : List β),
      resolveLoop keyOf mk rm rows acc sk = Except.ok (ins, ins2sk) →
      ∀ k ∈ sk, k ∈ ins2sk := by
  intro rows
  induction rows with
  | nil =>
    intro acc sk sk2 ins h k hk
    simp only [resolveLoop] at h
    injection h with h1
    injection h1 with h2 h3
    exact h3 ▸ hk
  | cons r rs ih =>
    intro acc sk sk2 ins h k hk
    cases hd : dictGet rm (keyOf r) with
    | none =>
      simp only [resolveLoop, hd] at h
      exact ih acc _ sk2 ins h k (mem_setInsert_of_mem _ hk)
    | some rid =>
      cases hm : mk r rid with
      | error e =>
        simp only [resolveLoop, hd, hm] at h
        exact Except.noConfusion h
      | ok b =>
        simp only [resolveLoop, hd, hm] at h
        exact ih (acc ++ [b]) sk sk2 ins h k hk

theorem resolveLoop_acc_mono {α β : Type} (keyOf : α → RootKey)
    (mk : α → Nat → Except String β) (rm : RootMap) :
    ∀ (rows : List α) (acc : List β) (sk sk2 : List RootKey) (ins : List β),
      resolveLoop keyOf mk rm rows acc sk = Except.ok (ins, sk2) →
      ∀ b ∈ acc, b ∈ ins := by
  intro rows
  induction rows with
  | nil =>
    intro acc sk sk2 ins h b hb
    simp only [resolveLoop] at h
    injection h with h1
    injection h1 with h2 h3
    exact h2 ▸ hb
  | cons r rs ih =>
    intro acc sk sk2 ins h b hb
    cases hd : dictGet rm (keyOf r) with
    | none =>
      simp only [resolveLoop, hd] at h
      exact ih acc _ sk2 ins h b hb
    | some rid =>
      cases hm : mk r rid with
      | error e =>
        simp only [resolveLoop, hd, hm] at h
        exact Except.noConfusion h
      | ok b2 =>
        simp only [resolveLoop, hd, hm] at h
        exact ih (acc ++ [b2]) sk sk2 ins h b (List.mem_append_left _ hb)

theorem resolveLoop_miss_skipped {α β : Type} (keyOf : α → RootKey)
    (mk : α → Nat → Except String β) (rm : RootMap) :
    ∀ (rows : List α) (acc : List β) (sk sk2 : List RootKey) (ins : List β),
      resolveLoop keyOf mk rm rows acc sk = Except.ok (ins, sk2) →
      ∀ r ∈ rows, dictGet rm (keyOf r) = none → keyOf r ∈ sk2 := by
  intro rows
  induction rows with
  | nil =>
    intro acc sk sk2 ins h r hr
    cases hr
  | cons r0 rs ih =>
    intro acc sk sk2 ins h r hr hmiss
    rcases List.mem_cons.mp hr with rfl | hr2
    · simp only [resolveLoop, hmiss] at h
      exact resolveLoop_sk_mono keyOf mk rm rs acc _ sk2 ins h (keyOf r)
        (mem_setInsert_self sk (keyOf r))
    · cases hd : dictGet rm (keyOf r0) with
      | none =>
        simp only [resolveLoop, hd] at h
        exact ih acc _ sk2 ins h r hr2 hmiss
      | some rid =>
        cases hm : mk r0 rid with
        | error e =>
          simp only [resolveLoop, hd, hm] at h
          exact Except.noConfusion h
        | ok b =>
          simp only [resolveLoop, hd, hm] at h
          exact ih (acc ++ [b]) sk sk2 ins h r hr2 hmiss

theorem resolveLoop_skipped_sound {α β : Type} (keyOf : α → RootKey)
    (mk : α → Nat → Except String β) (rm : RootMap) :
    ∀ (rows : List α) (acc : List β) (sk sk2 : List RootKey) (ins : List β),
      resolveLoop keyOf mk rm rows acc sk = Except.ok (ins, sk2) →
      ∀ k ∈ sk2, k ∈ sk ∨ ∃ r, r ∈ rows ∧ keyOf r = k ∧ dictGet rm k = none := by
  intro rows
  induction rows with
  | nil =>
    intro acc sk sk2 ins h k hk
    simp only [resolveLoop] at h
    injection h with h1
    injection h1 with h2 h3
    exact Or.inl (h3 ▸ hk)
  | cons r0 rs ih =>
    intro acc sk sk2 ins h k hk
    cases hd : dictGet rm (keyOf r0) with
    | none =>
      simp only [resolveLoop, hd] at h
      rcases ih acc _ sk2 ins h k hk with hin | ⟨r, hr, hkey, hmiss⟩
      · rcases mem_setInsert_iff.mp hin with hin2 | rfl
        · exact Or.inl hin2
        · exact Or.inr ⟨r0, List.mem_cons_self _ _, rfl, hd⟩
      · exact Or.inr ⟨r, List.mem_cons_of_mem _ hr, hkey, hmiss⟩
    | some rid =>
      cases hm : mk r0 rid with
      | error e =>
        simp only [resolveLoop, hd, hm] at h
        exact Except.noConfusion h
      | ok b =>
        simp only [resolveLoop, hd, hm] at h
        rcases ih (acc ++ [b]) sk sk2 ins h k hk with hin | ⟨r, hr, hkey, hmiss⟩
        · exact Or.inl hin
        · exact Or.inr ⟨r, List.mem_cons_of_mem _ hr, hkey, hmiss⟩

theorem resolveLoop_sk_nodup {α β : Type} (keyOf : α → RootKey)
    (mk : α → Nat → Except String β) (rm : RootMap) :
    ∀ (rows : List α) (acc : List β) (sk sk2 : List RootKey) (ins : List β),
      resolveLoop keyOf mk rm rows acc sk = Except.ok (ins, sk2) →
      sk.Nodup → sk2.Nodup := by
  intro rows
  induction rows with
  | nil =>
    intro acc sk sk2 ins h hnd
    simp only [resolveLoop] at h
    injection h with h1
    injection h1 with h2 h3
    exact h3 ▸ hnd
  | cons r0 rs ih =>
    intro acc sk sk2 ins h hnd
    cases hd : dictGet rm (keyOf r0) with
    | none =>
      simp only [resolveLoop, hd] at h
      exact ih acc _ sk2 ins h (setInsert_nodup hnd _)
    | some rid =>
      cases hm : mk r0 rid with
      | error e =>
        simp only [resolveLoop, hd, hm] at h
        exact Except.noConfusion h
      | ok b =>
        simp only [resolveLoop, hd, hm] at h
        exact ih (acc ++ [b]) sk sk2 ins h hnd

theorem resolveLoop_hit_inserted {α β : Type} (keyOf : α → RootKey)
    (mk : α → Nat → Except String β) (rm : RootMap) :
    ∀ (rows : List α) (acc : List β) (sk sk2 : List RootKey) (ins : List β),
      resolveLoop keyOf mk rm rows acc sk = Except.ok (ins, sk2) →
      ∀ r ∈ rows, ∀ rid, dictGet rm (keyOf r) = some rid →
        ∃ b, b ∈ ins ∧ mk r rid = Except.ok b := by
  intro rows
  induction rows with
  | nil =>
    intro acc sk sk2 ins h r hr
    cases hr
  | cons r0 rs ih =>
    intro acc sk sk2 ins h r hr rid hrid
    rcases List.mem_cons.mp hr with rfl | hr2
    · simp only [resolveLoop, hrid] at h
      cases hm : mk r rid with
      | error e =>
        simp only [hm] at h
        exact Except.noConfusion h
      | ok b =>
        simp only [hm] at h
        exact ⟨b, resolveLoop_acc_mono keyOf mk rm rs (acc ++ [b]) sk sk2 ins h b
          (List.mem_append_right _ (List.mem_singleton.mpr rfl)), rfl⟩
    · cases hd : dictGet rm (keyOf r0) with
      | none =>
        simp only [resolveLoop, hd] at h
        exact ih acc _ sk2 ins h r hr2 rid hrid
      | some rid0 =>
        cases hm : mk r0 rid0 with
        | error e =>
          simp only [resolveLoop, hd, hm] at h
          exact Except.noConfusion h
        | ok b =>
          simp only [resolveLoop, hd, hm] at h
          exact ih (acc ++ [b]) sk sk2 ins h r hr2 rid hrid

theorem resolveLoop_error_of_mk_error {α β : Type} (keyOf : α → RootKey)
    (mk : α → Nat → Except String β) (rm : RootMap) :
    ∀ (rows : List α) (acc : List β) (sk : List RootKey) (r : α) (rid : Nat) (e : String),
      r ∈ rows → dictGet rm (keyOf r) = some rid → mk r rid = Except.error e →
      ∀ ins sk2, resolveLoop keyOf mk rm rows acc sk ≠ Except.ok (ins, sk2) := by
  intro rows
  induction rows with
  | nil =>
    intro acc sk r rid e hr
    cases hr
  | cons r0 rs ih =>
    intro acc sk r rid e hr hrid hmk ins sk2 h
    rcases List.mem_cons.mp hr with rfl | hr2
    · simp only [resolveLoop, hrid, hmk] at h
      exact Except.noConfusion h
    · cases hd : dictGet rm (keyOf r0) with
      | none =>
        simp only [resolveLoop, hd] at h
        exact ih acc _ r rid e hr2 hrid hmk ins sk2 h
      | some rid0 =>
        cases hm : mk r0 rid0 with
        | error e0 =>
          simp only [resolveLoop, hd, hm] at h
          exact Except.noConfusion h
        | ok b =>
          simp only [resolveLoop, hd, hm] at h
          exact ih (acc ++ [b]) sk r rid e hr2 hrid hmk ins sk2 h

theorem resolveLoop_inserted_length {α β : Type} (keyOf : α → RootKey)
    (mk : α → Nat → Except String β) (rm : RootMap) :
    ∀ (rows : List α) (acc : List β) (sk sk2 : List RootKey) (ins : List β),
      resolveLoop keyOf mk rm rows acc sk = Except.ok (ins, sk2) →
      ins.length =
        acc.length + (rows.filter (fun r => (dictGet rm (keyOf r)).isSome)).length := by
  intro rows
  induction rows with
  | nil =>
    intro acc sk sk2 ins h
    simp only [resolveLoop] at h
    injection h with h1
    injection h1 with h2 h3
    simp [← h2]
  | cons r0 rs ih =>
    intro acc sk sk2 ins h
    cases hd : dictGet rm (keyOf r0) with
    | none =>
      simp only [resolveLoop, hd] at h
      rw [List.filter_cons]
      simp only [hd, Option.isSome_none, Bool.false_eq_true, if_false]
      exact ih acc _ sk2 ins h
    | some rid =>
      cases hm : mk r0 rid with
      | error e =>
        simp only [resolveLoop, hd, hm] at h
        exact Except.noConfusion h
      | ok b =>
        simp only [resolveLoop, hd, hm] at h
        rw [List.filter_cons]
        simp only [hd, Option.isSome_some, if_true]
        have := ih (acc ++ [b]) sk sk2 ins h
        simp only [List.length_append, List.length_cons, List.length_nil] at this ⊢
        omega

theorem mkVerb_ok_root_id {vclass person number mode voice : EnumMap} {r : VerbRow}
    {rid : Nat} {b : VerbRec}
    (h : mkVerb vclass person number mode voice r rid = Except.ok b) : b.root_id = rid := by
  unfold mkVerb at h
  repeat' split at h
  all_goals try exact Except.noConfusion h
  all_goals injection h with h1
  all_goals rw [← h1]

theorem mkParticiple_ok_root_id {mode voice : EnumMap} {r : ParticipleRow}
    {rid : Nat} {b : ParticipleRec}
    (h : mkParticiple mode voice r rid = Except.ok b) : b.root_id = rid := by
  unfold mkParticiple at h
  repeat' split at h
  all_goals try exact Except.noConfusion h
  all_goals injection h with h1
  all_goals rw [← h1]

theorem addVerbs_ok_inv {vclass person number mode voice : EnumMap} {rm : RootMap}
    {rows : List VerbRow} {out : StageOut VerbRec}
    (h : addVerbs vclass person number mode voice rm rows = Except.ok out) :
    resolveLoop verbKey (mkVerb vclass person number mode voice) rm rows [] [] =
      Except.ok (out.inserted, out.skipped) ∧
    out.report = some out.skipped.length := by
  unfold addVerbs at h
  split at h
  · exact Except.noConfusion h
  · next x heq =>
    injection h with h1
    subst h1
    exact ⟨heq, rfl⟩

theorem addParticipleStems_ok_inv {mode voice : EnumMap} {rm : RootMap}
    {rows : List ParticipleRow} {out : StageOut ParticipleRec}
    (h : addParticipleStems mode voice rm rows = Except.ok out) :
    resolveLoop participleKey (mkParticiple mode voice) rm rows [] [] =
      Except.ok (out.inserted, out.skipped) ∧
    out.report = some out.skipped.length := by
  unfold addParticipleStems at h
  split at h
  · exact Except.noConfusion h
  · next x heq =>
    injection h with h1
    subst h1
    exact ⟨heq, rfl⟩

theorem viLoop_eq_resolveLoop (kind : VIKind) (rm : RootMap) :
    ∀ (rows : List VIRow) (acc : List VIRec) (sk : List RootKey),
      resolveLoop viKey (mkVI kind) rm rows acc sk =
        Except.ok (viLoop kind rm rows acc sk) := by
  intro rows
  induction rows with
  | nil =>
    intro acc sk
    rfl
  | cons r rs ih =>
    intro acc sk
    cases hd : dictGet rm (viKey r) with
    | none =>
      simp only [resolveLoop, viLoop, hd]
      exact ih _ _
    | some rid =>
      simp only [resolveLoop, viLoop, hd, mkVI]
      exact ih _ _

/-- C1 counterexample: in the gerund and infinitive stage a record whose
(root, hom) pair misses the root map joins the skipped set, yet the
stage reports no skip count at its end, against the claim that every one
of the four stages reports the skipped count. -/
theorem verbalInd_noReport_cex :
    (addVerbalIndeclinables [(("gam", none), 1)] [VIRow.mk "gatva" "bhU" none] []).report
        = none ∧
    (addVerbalIndeclinables [(("gam", none), 1)] [VIRow.mk "gatva" "bhU" none] []).skipped
        = [("bhU", none)] := by
  decide

/-- C1 (amended): in the verbs, participle-stems, gerund and infinitive
stages the root reference is resolved by exact lookup of (root name,
homonym or none) in the root map; a present pair leads to a record
carrying the resolved root id, an absent pair adds the pair to the
skipped set, inserts nothing for the record, and processing continues;
the skip count len(skipped) is reported at end of stage by the verbs and
participle-stems stages, while the gerund and infinitive stage collects
its skipped set without reporting it. -/
theorem stageRootResolution :
    (∀ (vclass person number mode voice : EnumMap) (rm : RootMap) (rows : List VerbRow)
        (out : StageOut VerbRec),
      addVerbs vclass person number mode voice rm rows = Except.ok out →
      (∀ r ∈ rows, ∀ rid, dictGet rm (verbKey r) = some rid →
        ∃ b, b ∈ out.inserted ∧ mkVerb vclass person number mode voice r rid = Except.ok b ∧
          b.root_id = rid) ∧
      (∀ r ∈ rows, dictGet rm (verbKey r) = none → verbKey r ∈ out.skipped) ∧
      out.inserted.length =
        (rows.filter (fun r => (dictGet rm (verbKey r)).isSome)).length ∧
      out.report = some out.skipped.length) ∧
    (∀ (mode voice : EnumMap) (rm : RootMap) (rows : List ParticipleRow)
        (out : StageOut ParticipleRec),
      addParticipleStems mode voice rm rows = Except.ok out →
      (∀ r ∈ rows, ∀ rid, dictGet rm (participleKey r) = some rid →
        ∃ b, b ∈ out.inserted ∧ mkParticiple mode voice r rid = Except.ok b ∧
          b.root_id = rid) ∧
      (∀ r ∈ rows, dictGet rm (participleKey r) = none → participleKey r ∈ out.skipped) ∧
      out.inserted.length =
        (rows.filter (fun r => (dictGet rm (participleKey r)).isSome)).length ∧
      out.report = some out.skipped.length) ∧
    (∀ (rm : RootMap) (gerRows infRows : List VIRow),
      (∀ r ∈ gerRows, ∀ rid, dictGet rm (viKey r) = some rid →
        VIRec.mk VIKind.gerund r.name rid ∈
          (addVerbalIndeclinables rm gerRows infRows).inserted) ∧
      (∀ r ∈ infRows, ∀ rid, dictGet rm (viKey r) = some rid →
        VIRec.mk VIKind.infinitive r.name rid ∈
          (addVerbalIndeclinables rm gerRows infRows).inserted) ∧
      (∀ r ∈ gerRows ++ infRows, dictGet rm (viKey r) = none →
        viKey r ∈ (addVerbalIndeclinables rm gerRows infRows).skipped) ∧
      (addVerbalIndeclinables rm gerRows infRows).inserted.length =
        ((gerRows ++ infRows).filter (fun r => (dictGet rm (viKey r)).isSome)).length ∧
      (addVerbalIndeclinables rm gerRows infRows).report = none) := by
  refine ⟨?_, ?_, ?_⟩
  · intro vclass person number mode voice rm rows out h
    obtain ⟨hres, hrep⟩ := addVerbs_ok_inv h
    refine ⟨?_, ?_, ?_, hrep⟩
    · intro r hr rid hrid
      obtain ⟨b, hb, hmk⟩ := resolveLoop_hit_inserted verbKey
        (mkVerb vclass person number mode voice) rm rows [] [] out.skipped out.inserted
        hres r hr rid hrid
      exact ⟨b, hb, hmk, mkVerb_ok_root_id hmk⟩
    · intro r hr hmiss
      exact resolveLoop_miss_skipped verbKey (mkVerb vclass person number mode voice) rm
        rows [] [] out.skipped out.inserted hres r hr hmiss
    · have := resolveLoop_inserted_length verbKey (mkVerb vclass person number mode voice)
        rm rows [] [] out.skipped out.inserted hres
      simpa using this
  · intro mode voice rm rows out h
    obtain ⟨hres, hrep⟩ := addParticipleStems_ok_inv h
    refine ⟨?_, ?_, ?_, hrep⟩
    · intro r hr rid hrid
      obtain ⟨b, hb, hmk⟩ := resolveLoop_hit_inserted participleKey
        (mkParticiple mode voice) rm rows [] [] out.skipped out.inserted hres r hr rid hrid
      exact ⟨b, hb, hmk, mkParticiple_ok_root_id hmk⟩
    · intro r hr hmiss
      exact resolveLoop_miss_skipped participleKey (mkParticiple mode voice) rm
        rows [] [] out.skipped out.inserted hres r hr hmiss
    · have := resolveLoop_inserted_length participleKey (mkParticiple mode voice)
        rm rows [] [] out.skipped out.inserted hres
      simpa using this
  · intro rm gerRows infRows
    have hg : resolveLoop viKey (mkVI VIKind.gerund) rm gerRows [] [] =
        Except.ok ((viLoop VIKind.gerund rm gerRows [] []).1,
          (viLoop VIKind.gerund rm gerRows [] []).2) :=
      viLoop_eq_resolveLoop VIKind.gerund rm gerRows [] []
    have hy : resolveLoop viKey (mkVI VIKind.infinitive) rm infRows
        (viLoop VIKind.gerund rm gerRows [] []).1
        (viLoop VIKind.gerund rm gerRows [] []).2 =
        Except.ok ((viLoop VIKind.infinitive rm infRows
            (viLoop VIKind.gerund rm gerRows [] []).1
            (viLoop VIKind.gerund rm gerRows [] []).2).1,
          (viLoop VIKind.infinitive rm infRows
            (viLoop VIKind.gerund rm gerRows [] []).1
            (viLoop VIKind.gerund rm gerRows [] []).2).2) :=
      viLoop_eq_resolveLoop VIKind.infinitive rm infRows _ _
    refine ⟨?_, ?_, ?_, ?_, rfl⟩
    · intro r hr rid hrid
      obtain ⟨b, hb, hmk⟩ := resolveLoop_hit_inserted viKey (mkVI VIKind.gerund) rm
        gerRows [] [] (viLoop VIKind.gerund rm gerRows [] []).2
        (viLoop VIKind.gerund rm gerRows [] []).1 hg r hr rid hrid
      have hb2 : b = VIRec.mk VIKind.gerund r.name rid := by
        unfold mkVI at hmk
        injection hmk with h1
        exact h1.symm
      subst hb2
      exact resolveLoop_acc_mono viKey (mkVI VIKind.infinitive) rm infRows
        (viLoop VIKind.gerund rm gerRows [] []).1
        (viLoop VIKind.gerund rm gerRows [] []).2 _ _ hy _ hb
    · intro r hr rid hrid
      obtain ⟨b, hb, hmk⟩ := resolveLoop_hit_inserted viKey (mkVI VIKind.infinitive) rm
        infRows (viLoop VIKind.gerund rm gerRows [] []).1
        (viLoop VIKind.gerund rm gerRows [] []).2 _ _ hy r hr rid hrid
      have hb2 : b = VIRec.mk VIKind.infinitive r.name rid := by
        unfold mkVI at hmk
        injection hmk with h1
        exact h1.symm
      subst hb2
      exact hb
    · intro r hr hmiss
      rcases List.mem_append.mp hr with hrg | hri
      · have hsk := resolveLoop_miss_skipped viKey (mkVI VIKind.gerund) rm gerRows [] []
          (viLoop VIKind.gerund rm gerRows [] []).2
          (viLoop VIKind.gerund rm gerRows [] []).1 hg r hrg hmiss
        exact resolveLoop_sk_mono viKey (mkVI VIKind.infinitive) rm infRows
          (viLoop VIKind.gerund rm gerRows [] []).1
          (viLoop VIKind.gerund rm gerRows [] []).2 _ _ hy (viKey r) hsk
      · exact resolveLoop_miss_skipped viKey (mkVI VIKind.infinitive) rm infRows
          (viLoop VIKind.gerund rm gerRows [] []).1
          (viLoop VIKind.gerund rm gerRows [] []).2 _ _ hy r hri hmiss
    · have h1 := resolveLoop_inserted_length viKey (mkVI VIKind.gerund) rm gerRows [] []
        (viLoop VIKind.gerund rm gerRows [] []).2
        (viLoop VIKind.gerund rm gerRows [] []).1 hg
      have h2 := resolveLoop_inserted_length viKey (mkVI VIKind.infinitive) rm infRows
        (viLoop VIKind.gerund rm gerRows [] []).1
        (viLoop VIKind.gerund rm gerRows [] []).2 _ _ hy
      show (viLoop VIKind.infinitive rm infRows (viLoop VIKind.gerund rm gerRows [] []).1
          (viLoop VIKind.gerund rm gerRows [] []).2).1.length = _
      rw [List.filter_append, List.length_append]
      simp only [List.length_nil] at h1
      omega

/-- Witness for C1: a two-row verbs run inserts the resolvable record,
skips the unresolvable pair, and reports the skip count. -/
theorem stageRootResolution_witness :
    addVerbs emW emW emW emW emW rmW [verbRowW, verbRowMissW] =
      Except.ok (StageOut.mk [VerbRec.mk "gacchati" 1 none 1 1 1 1]
        [("bhU", none)] (some 1)) ∧
    verbKey verbRowMissW ∈
      (StageOut.mk [VerbRec.mk "gacchati" 1 none 1 1 1 1]
        [("bhU", none)] (some 1) : StageOut VerbRec).skipped ∧
    (StageOut.mk [VerbRec.mk "gacchati" 1 none 1 1 1 1]
      [("bhU", none)] (some 1) : StageOut VerbRec).report = some 1 :=
  have h : addVerbs emW emW emW emW emW rmW [verbRowW, verbRowMissW] =
      Except.ok (StageOut.mk [VerbRec.mk "gacchati" 1 none 1 1 1 1]
        [("bhU", none)] (some 1)) := by rfl
  ⟨h, (stageRootResolution.1 emW emW emW emW emW rmW [verbRowW, verbRowMissW] _ h).2.1
      verbRowMissW (by decide) (by decide),
    ((stageRootResolution.1 emW emW emW emW emW rmW [verbRowW, verbRowMissW] _ h).2.2.2 :)⟩

/-- C9: in the verbs and participle-stems stages the reported skip count
equals the number of distinct (root, homonym) pairs that failed to
resolve: the skipped set holds each missed pair exactly once, whatever
the number of dropped records. -/
theorem skipCount_distinctPairs :
    (∀ (vclass person number mode voice : EnumMap) (rm : RootMap) (rows : List VerbRow)
        (out : StageOut VerbRec),
      addVerbs vclass person number mode voice rm rows = Except.ok out →
      out.report = some out.skipped.length ∧ out.skipped.Nodup ∧
      (∀ k, k ∈ out.skipped ↔ ∃ r, r ∈ rows ∧ verbKey r = k ∧ dictGet rm k = none)) ∧
    (∀ (mode voice : EnumMap) (rm : RootMap) (rows : List ParticipleRow)
        (out : StageOut ParticipleRec),
      addParticipleStems mode voice rm rows = Except.ok out →
      out.report = some out.skipped.length ∧ out.skipped.Nodup ∧
      (∀ k, k ∈ out.skipped ↔ ∃ r, r ∈ rows ∧ participleKey r = k ∧ dictGet rm k = none)) := by
  constructor
  · intro vclass person number mode voice rm rows out h
    obtain ⟨hres, hrep⟩ := addVerbs_ok_inv h
    refine ⟨hrep, ?_, ?_⟩
    · exact resolveLoop_sk_nodup verbKey (mkVerb vclass person number mode voice) rm rows
        [] [] out.skipped out.inserted hres List.nodup_nil
    · intro k
      constructor
      · intro hk
        rcases resolveLoop_skipped_sound verbKey (mkVerb vclass person number mode voice)
          rm rows [] [] out.skipped out.inserted hres k hk with hin | hex
        · cases hin
        · exact hex
      · rintro ⟨r, hr, rfl, hmiss⟩
        exact resolveLoop_miss_skipped verbKey (mkVerb vclass person number mode voice)
          rm rows [] [] out.skipped out.inserted hres r hr hmiss
  · intro mode voice rm rows out h
    obtain ⟨hres, hrep⟩ := addParticipleStems_ok_inv h
    refine ⟨hrep, ?_, ?_⟩
    · exact resolveLoop_sk_nodup participleKey (mkParticiple mode voice) rm rows
        [] [] out.skipped out.inserted hres List.nodup_nil
    · intro k
      constructor
      · intro hk
        rcases resolveLoop_skipped_sound participleKey (mkParticiple mode voice)
          rm rows [] [] out.skipped out.inserted hres k hk with hin | hex
        · cases hin
        · exact hex
      · rintro ⟨r, hr, rfl, hmiss⟩
        exact resolveLoop_miss_skipped participleKey (mkParticiple mode voice)
          rm rows [] [] out.skipped out.inserted hres r hr hmiss

/-- Witness for C9: two dropped records referencing the same unresolved
pair contribute one entry to the skipped set and a reported count of 1. -/
theorem skipCount_distinctPairs_witness :
    addVerbs emW emW emW emW emW rmW [verbRowMissW, verbRowMiss2W] =
      Except.ok (StageOut.mk [] [("bhU", none)] (some 1)) ∧
    (StageOut.mk ([] : List VerbRec) [("bhU", none)] (some 1)).report =
      some (StageOut.mk ([] : List VerbRec) [("bhU", none)] (some 1)).skipped.length :=
  have h : addVerbs emW emW emW emW emW rmW [verbRowMissW, verbRowMiss2W] =
      Except.ok (StageOut.mk [] [("bhU", none)] (some 1)) := by rfl
  ⟨h, (skipCount_distinctPairs.1 emW emW emW emW emW rmW [verbRowMissW, verbRowMiss2W]
      _ h).1⟩

/-- C2 counterexample: a nominal-endings record whose case name is
absent from the case enum map does not abort the stage; the record is
inserted with a silently defaulted case id of none. -/
theorem nominalEnding_silentDefault_cex :
    addNominalEndings [("feminine", 1)] [("nominative", 1)] [("singular", 1)]
      [("a", [NominalRow.mk "aa" "feminine" (some "bogus") (some "singular") false])] [] =
      Except.ok [NominalRec.mk "aa" "a" 1 none (some 1) false] := by
  rfl

/-- C2 (amended): a record referencing an enum name absent from a
raising enum lookup aborts its stage (shown for the verb stage and for
the gender field of nominal endings, which is the only raising lookup
there), but the case and number fields of nominal endings use
non-raising dict.get lookups and silently receive none when the
referenced name is absent. -/
theorem enumMissPolicy :
    (∀ (vclass person number mode voice : EnumMap) (rm : RootMap) (rows : List VerbRow)
        (r : VerbRow) (rid : Nat) (e : String),
      r ∈ rows → dictGet rm (verbKey r) = some rid →
      mkVerb vclass person number mode voice r rid = Except.error e →
      ∀ out, addVerbs vclass person number mode voice rm rows ≠ Except.ok out) ∧
    (∀ (gender cs num : EnumMap) (stem : String) (rows : List NominalRow)
        (acc : List NominalRec) (r : NominalRow) (e : String),
      r ∈ rows → mkNominalEnding gender cs num stem r = Except.error e →
      ∀ acc2, nominalGroupLoop gender cs num stem rows acc ≠ Except.ok acc2) ∧
    (∀ (gender cs num : EnumMap) (stem : String) (r : NominalRow) (gid : Nat),
      dictGet gender r.gender = some gid →
      mkNominalEnding gender cs num stem r =
        Except.ok (NominalRec.mk r.name stem gid
          (r.csName.bind (fun s => dictGet cs s))
          (r.numName.bind (fun s => dictGet num s)) r.compounded)) := by
  refine ⟨?_, ?_, ?_⟩
  · intro vclass person number mode voice rm rows r rid e hr hrid hmk out h
    unfold addVerbs at h
    split at h
    · exact Except.noConfusion h
    · next x heq =>
      exact resolveLoop_error_of_mk_error verbKey (mkVerb vclass person number mode voice)
        rm rows [] [] r rid e hr hrid hmk x.1 x.2 heq
  · intro gender cs num stem rows
    induction rows with
    | nil =>
      intro acc r e hr
      cases hr
    | cons r0 rs ih =>
      intro acc r e hr hmk acc2 h
      cases hm0 : mkNominalEnding gender cs num stem r0 with
      | error e0 =>
        simp only [nominalGroupLoop, hm0] at h
        exact Except.noConfusion h
      | ok nr =>
        simp only [nominalGroupLoop, hm0] at h
        rcases List.mem_cons.mp hr with rfl | hr2
        · rw [hmk] at hm0
          exact Except.noConfusion hm0
        · exact ih (acc ++ [nr]) r e hr2 hmk acc2 h
  · intro gender cs num stem r gid hgid
    simp only [mkNominalEnding, dictGetE, hgid]

/-- Witness for C2: a verb record with an unknown person name prevents
the verbs stage from succeeding, while a nominal-endings record with an
unknown case name is built with case id none. -/
theorem enumMissPolicy_witness :
    dictGet nomGenderW nomRowBadCase.gender = some 1 ∧
    mkNominalEnding nomGenderW [("nominative", 1)] [("singular", 1)] "a" nomRowBadCase =
      Except.ok (NominalRec.mk nomRowBadCase.name "a" 1
        (nomRowBadCase.csName.bind (fun s => dictGet [("nominative", 1)] s))
        (nomRowBadCase.numName.bind (fun s => dictGet [("singular", 1)] s))
        nomRowBadCase.compounded) ∧
    mkVerb emW emW emW emW emW verbRowBadPerson 1 = Except.error "bogus" ∧
    addVerbs emW emW emW emW emW rmW [verbRowBadPerson] ≠
      Except.ok (StageOut.mk [] [] (some 0)) :=
  ⟨by decide,
   enumMissPolicy.2.2 nomGenderW [("nominative", 1)] [("singular", 1)] "a"
     nomRowBadCase 1 (by decide),
   by rfl,
   enumMissPolicy.1 emW emW emW emW emW rmW [verbRowBadPerson] verbRowBadPerson 1 "bogus"
     (by decide) (by decide) (by rfl) (StageOut.mk [] [] (some 0))⟩

theorem foldl_overwrite {γ δ : Type} (f : γ → Option δ) :
    ∀ (l : List γ) (init : Option δ),
      l.foldl (overwriteStep f) init = orDefault (lastSome (l.filterMap f)) init := by
  intro l
  induction l with
  | nil =>
    intro init
    simp [lastSome, orDefault]
  | cons x xs ih =>
    intro init
    rw [List.foldl_cons, ih]
    cases hf : f x with
    | none =>
      simp [List.filterMap_cons, hf, overwriteStep]
    | some b =>
      simp only [List.filterMap_cons, hf, lastSome, overwriteStep, orDefault]
      cases hl : lastSome (xs.filterMap f) with
      | none => simp [orDefault]
      | some c => simp [orDefault]

theorem orDefault_none {δ : Type} (o : Option δ) : orDefault o none = o := by
  cases o <;> rfl

theorem scanBasis_eq (rm : RootMap) (basis : String) :
    scanBasis rm basis = lastSome (homScan.filterMap (fun h => dictGet rm (basis, h))) :=
  (foldl_overwrite (fun h => dictGet rm (basis, h)) homScan none).trans
    (orDefault_none _)

/-- C3 counterexample: the fallback scan of add_prefixed_roots visits
none first and then indices 1 through 9, not indices 0 through 9 and
then none as the claim states: on rmOrderCex the source selects id 2
where the claim's scan order yields 1, and on rmZeroCex the source
selects nothing where the claim's scan yields 7. -/
theorem homScan_claim_cex :
    resolveBasis rmOrderCex "gam" (some "7") = some 2 ∧
    specScanBasis rmOrderCex "gam" = some 1 ∧
    resolveBasis rmZeroCex "gam" (some "5") = none ∧
    specScanBasis rmZeroCex "gam" = some 7 := by
  decide

/-- C3 (amended): when the exact (basis, hom) pair is absent from the
root map, add_prefixed_roots retries by scanning homonym index none
followed by indices 1 through 9; each matching iteration overwrites the
candidate rather than stopping, so the basis id finally selected is the
one for the last matching index in that scan order (and none when no
index matches). -/
theorem resolveBasis_lastMatch (rm : RootMap) (basis : String) (hom : Option String) :
    (∀ v, dictGet rm (basis, hom) = some v → resolveBasis rm basis hom = some v) ∧
    (dictGet rm (basis, hom) = none →
      resolveBasis rm basis hom =
        lastSome (homScan.filterMap (fun h => dictGet rm (basis, h)))) := by
  constructor
  · intro v hv
    unfold resolveBasis
    rw [hv]
  · intro hmiss
    simp only [resolveBasis, hmiss]
    exact scanBasis_eq rm basis

/-- Witness for C3 at rmOrderCex: the exact pair misses and the selected
basis id is the last match of the source scan order. -/
theorem resolveBasis_lastMatch_witness :
    dictGet rmOrderCex ("gam", some "7") = none ∧
    resolveBasis rmOrderCex "gam" (some "7") =
      lastSome (homScan.filterMap (fun h => dictGet rmOrderCex ("gam", h))) :=
  ⟨by decide, (resolveBasis_lastMatch rmOrderCex "gam" (some "7")).2 (by decide)⟩

theorem addNounStemsAux_eq_bulk (gg : EnumMap) (posId : Nat) :
    ∀ (rows : List NounRow) (buf : List NounStemRec) (i : Nat)
      (out : List (List NounStemRec)),
      addNounStemsAux gg posId rows buf i out =
        match nounRecsOf gg posId rows with
        | Except.error e => Except.error e
        | Except.ok recs => Except.ok (bulkAux recs buf i out) := by
  intro rows
  induction rows with
  | nil =>
    intro buf i out
    rfl
  | cons r rs ih =>
    intro buf i out
    cases hd : dictGet gg r.genders with
    | none => simp only [addNounStemsAux, nounRecsOf, hd]
    | some gid =>
      cases hrec : nounRecsOf gg posId rs with
      | error e =>
        simp only [addNounStemsAux, nounRecsOf, hd, hrec]
        by_cases hmod : (i + 1) % 500 = 0
        · simp only [hmod, if_true]
          rw [ih]
          simp [hrec]
        · simp only [hmod, if_false]
          rw [ih]
          simp [hrec]
      | ok recs =>
        simp only [addNounStemsAux, nounRecsOf, hd, hrec, bulkAux]
        by_cases hmod : (i + 1) % 500 = 0
        · simp only [hmod, if_true]
          rw [ih]
          simp [hrec]
        · simp only [hmod, if_false]
          rw [ih]
          simp [hrec]

theorem addAdjStemsAux_eq_bulk (posId : Nat) :
    ∀ (rows : List AdjRow) (buf : List AdjStemRec) (i : Nat)
      (out : List (List AdjStemRec)),
      addAdjStemsAux posId rows buf i out =
        bulkAux (rows.map (fun r => AdjStemRec.mk r.name posId)) buf i out := by
  intro rows
  induction rows with
  | nil =>
    intro buf i out
    rfl
  | cons r rs ih =>
    intro buf i out
    simp only [addAdjStemsAux, List.map_cons, bulkAux]
    by_cases hmod : (i + 1) % 500 = 0
    · simp only [hmod, if_true]
      exact ih _ _ _
    · simp only [hmod, if_false]
      exact ih _ _ _

theorem bulkAux_char {γ : Type} :
    ∀ (xs buf : List γ) (i : Nat) (out : List (List γ)),
      buf.length = i % 500 → (∀ b ∈ out, b.length = 500) →
      (bulkAux xs buf i out).1.flatten ++ (bulkAux xs buf i out).2 = out.flatten ++ buf ++ xs ∧
      (bulkAux xs buf i out).2.length = (i + xs.length) % 500 ∧
      ∀ b ∈ (bulkAux xs buf i out).1, b.length = 500 := by
  intro xs
  induction xs with
  | nil =>
    intro buf i out hbuf hout
    refine ⟨by simp [bulkAux], ?_, ?_⟩
    · simpa [bulkAux] using hbuf
    · simpa [bulkAux] using hout
  | cons x xs ih =>
    intro buf i out hbuf hout
    by_cases hmod : (i + 1) % 500 = 0
    · have hlen : (buf ++ [x]).length = 500 := by
        rw [List.length_append]
        simp only [List.length_cons, List.length_nil]
        omega
      have hout2 : ∀ b ∈ out ++ [buf ++ [x]], b.length = 500 := by
        intro b hb
        rcases List.mem_append.mp hb with hb1 | hb2
        · exact hout b hb1
        · rw [List.mem_singleton.mp hb2]
          exact hlen
      obtain ⟨h1, h2, h3⟩ := ih [] (i + 1) (out ++ [buf ++ [x]]) (by simpa using hmod.symm)
        hout2
      simp only [bulkAux, hmod, if_true]
      refine ⟨?_, ?_, h3⟩
      · rw [h1]
        simp
      · rw [h2]
        congr 1
        simp only [List.length_cons]
        omega
    · have hlen : (buf ++ [x]).length = (i + 1) % 500 := by
        rw [List.length_append]
        simp only [List.length_cons, List.length_nil]
        omega
      obtain ⟨h1, h2, h3⟩ := ih (buf ++ [x]) (i + 1) out hlen hout
      simp only [bulkAux, hmod, if_false]
      refine ⟨?_, ?_, h3⟩
      · rw [h1]
        simp
      · rw [h2]
        congr 1
        simp only [List.length_cons]
        omega

theorem flushFinal_char {γ : Type} (xs : List γ) :
    (flushFinal (bulkAux xs [] 0 [])).flatten = xs ∧
    ∀ b ∈ (flushFinal (bulkAux xs [] 0 [])).dropLast, b.length = 500 := by
  obtain ⟨h1, h2, h3⟩ := bulkAux_char xs [] 0 [] (by simp) (by simp)
  unfold flushFinal
  by_cases he : (bulkAux xs [] 0 []).2.isEmpty
  · have hnil : (bulkAux xs [] 0 []).2 = [] := List.isEmpty_iff.mp he
    rw [if_pos he]
    constructor
    · rw [hnil] at h1
      simpa using h1
    · intro b hb
      exact h3 b ((List.dropLast_sublist _).subset hb)
  · rw [if_neg he]
    constructor
    · rw [List.flatten_append]
      simpa using h1
    · intro b hb
      rw [List.dropLast_concat] at hb
      exact h3 b hb

/-- C7: in the noun-stem and adjective-stem bulk stages, payloads
buffer in memory, every 500th row triggers one bulk insert of the whole
buffer which is then cleared (so each non-final insert carries exactly
500 rows), a final bulk insert flushes any remainder, and concatenating
the issued inserts recovers every row payload exactly once in input
order. -/
theorem bulkStage_batching :
    (∀ (gg : EnumMap) (posId : Nat) (rows : List NounRow) (recs : List NounStemRec),
      nounRecsOf gg posId rows = Except.ok recs →
      addNounStems gg posId rows = Except.ok (flushFinal (bulkAux recs [] 0 [])) ∧
      (flushFinal (bulkAux recs [] 0 [])).flatten = recs ∧
      ∀ b ∈ (flushFinal (bulkAux recs [] 0 [])).dropLast, b.length = 500) ∧
    (∀ (posId : Nat) (rows : List AdjRow),
      (addAdjectiveStems posId rows).flatten = rows.map (fun r => AdjStemRec.mk r.name posId) ∧
      ∀ b ∈ (addAdjectiveStems posId rows).dropLast, b.length = 500) := by
  constructor
  · intro gg posId rows recs hrec
    obtain ⟨h1, h2⟩ := flushFinal_char recs
    refine ⟨?_, h1, h2⟩
    unfold addNounStems
    rw [addNounStemsAux_eq_bulk, hrec]
  · intro posId rows
    unfold addAdjectiveStems
    rw [addAdjStemsAux_eq_bulk]
    exact flushFinal_char (rows.map (fun r => AdjStemRec.mk r.name posId))

/-- Witness for C7: a two-row noun-stem input produces one final bulk
insert holding both payloads. -/
theorem bulkStage_batching_witness :
    nounRecsOf [("mf", 3)] 5 [NounRow.mk "deva" "mf", NounRow.mk "asva" "mf"] =
      Except.ok [NounStemRec.mk "deva" 5 3, NounStemRec.mk "asva" 5 3] ∧
    addNounStems [("mf", 3)] 5 [NounRow.mk "deva" "mf", NounRow.mk "asva" "mf"] =
      Except.ok (flushFinal
        (bulkAux [NounStemRec.mk "deva" 5 3, NounStemRec.mk "asva" 5 3] [] 0 [])) :=
  have h : nounRecsOf [("mf", 3)] 5 [NounRow.mk "deva" "mf", NounRow.mk "asva" "mf"] =
      Except.ok [NounStemRec.mk "deva" 5 3, NounStemRec.mk "asva" 5 3] := by rfl
  ⟨h, (bulkStage_batching.1 [("mf", 3)] 5
      [NounRow.mk "deva" "mf", NounRow.mk "asva" "mf"]
      [NounStemRec.mk "deva" 5 3, NounStemRec.mk "asva" 5 3] h).1⟩

/-- C8 (code bug): at a state where the tags table already exists and
the roots table does not, create_all does create the missing table, but
its report lists both tables, including the pre-existing tags table the
claim requires it to exclude: the membership test compares a Table
object against a set of name strings, so it never finds the table. -/
theorem createAll_report_bug :
    createAllModel [SchemaTable.mk "tags", SchemaTable.mk "roots"] ["tags"] =
      (["tags", "roots"], [SchemaTable.mk "tags", SchemaTable.mk "roots"]) ∧
    SchemaTable.mk "tags" ∈
      (createAllModel [SchemaTable.mk "tags", SchemaTable.mk "roots"] ["tags"]).2 ∧
    "tags" ∈ (["tags"] : List String) := by
  decide
